import Mathlib

/-!
Verification model of the link-expansion engine of `wiki_expanded`
(`src/wiki_expanded/dataset_builder.py`, class `DatasetBuilder`).

The mutable Python object is modelled by the `Builder` structure; every
method that the claims touch is translated to a Lean function on `Builder`.
The SQLite `articles` table is modelled by the `articles` field, a list of
`(title, text)` rows in the table's iteration order.  Python `Counter`s and
`set`s of strings are modelled as functions `String → Nat` / `String → Bool`
(a `Counter` returns `0` for absent keys, and its key set is exactly the
titles with a positive count, since counts are only ever incremented).
A raised Python exception is modelled with `Except String`.
-/

/-- Output unit of the engine: the dictionary built at the end of
`DatasetBuilder._expand`. -/
structure Sample where
  title : String
  n_tokens : Nat
  links_expanded : List String
  n_links_expanded : Nat
  expanded_text : String
deriving Repr, DecidableEq

/-- The state and configuration of a `DatasetBuilder` instance.  Fields map
one-to-one onto the Python attributes used by the expansion engine
(`files_expanded` is written but never read in the source and is omitted;
the `save_dir`/path fields are file-system plumbing outside the engine).
`samples` models the content of the dataset JSONL file that
`_append_sample` appends to. -/
structure Builder where
  titleToLinks : String → List String
  linkToFreq : String → Nat
  titleToNumTokens : String → Nat
  articles : List (String × String)
  minTokens : Nat
  maxTokens : Nat
  maxDatasetLength : Option Nat
  maxLinkExpansionsLocal : Option Nat
  maxLinkExpansionsGlobal : Option Nat
  includeStrategy : String
  linkExpansionCount : String → Nat
  datasetLength : Nat
  carriedForward : String → Bool
  allLinksConsidered : String → Bool
  samples : List Sample

/-- Python truthiness of an `int | None` value: `None` and `0` are falsy.
Used where the source tests a configuration value with a bare `if`. -/
def optTruthy : Option Nat → Bool
  | none => false
  | some n => n != 0

/-- `DatasetBuilder._article_exists`: `SELECT 1 FROM articles WHERE title = ?`. -/
def articleExists (b : Builder) (t : String) : Bool :=
  b.articles.any (fun p => p.1 == t)

/-- `DatasetBuilder._get_article_text`.  The `KeyError` branch for a missing
row is unreachable at its call site in `_expand`, which only fetches links
that passed `_article_exists` over the same table, so the model totalises it
with `""`. -/
def getArticleText (b : Builder) (t : String) : String :=
  (((b.articles.find? (fun p => p.1 == t)).map Prod.snd).getD "")

/-- `DatasetBuilder._include_link_text`: splice a linked article's text
before (`"prepend"`) or after (`"append"`) the current text, separated by a
blank line; any other strategy string raises `ValueError`. -/
def includeLinkText (b : Builder) (linkArticle text : String) : Except String String :=
  if b.includeStrategy == "append" then
    Except.ok (text ++ "\n\n" ++ linkArticle)
  else if b.includeStrategy == "prepend" then
    Except.ok (linkArticle ++ "\n\n" ++ text)
  else
    Except.error ("Invalid include strategy: " ++ b.includeStrategy)

/-- The `to_prioritize` flag of `_prioritize_links`: the link was considered
but not expanded in the first iteration AND has not been expanded yet. -/
def toPrioritize (b : Builder) (link : String) : Bool :=
  b.carriedForward link && (b.linkExpansionCount link == 0)

/-- Sort key of one candidate in `_prioritize_links`:
`(not to_prioritize, expansion_count, frequency, num_tokens)` with the
boolean mapped to `0`/`1` (Python `False < True`). -/
abbrev Key : Type := Nat × Nat × Nat × Nat

/-- Strict lexicographic order on sort keys. -/
def keyLt (a b : Key) : Prop :=
  a.1 < b.1 ∨ (a.1 = b.1 ∧ (a.2.1 < b.2.1 ∨ (a.2.1 = b.2.1 ∧
    (a.2.2.1 < b.2.2.1 ∨ (a.2.2.1 = b.2.2.1 ∧ a.2.2.2 < b.2.2.2)))))

/-- Non-strict lexicographic order on sort keys. -/
def keyLe (a b : Key) : Prop :=
  keyLt a b ∨ a = b

instance (a b : Key) : Decidable (keyLt a b) := by
  unfold keyLt; infer_instance

instance (a b : Key) : Decidable (keyLe a b) := by
  unfold keyLe; infer_instance

theorem keyLt_irrefl (a : Key) : ¬ keyLt a a := by
  obtain ⟨a1, a2, a3, a4⟩ := a
  simp only [keyLt]
  omega

theorem keyLe_total (a b : Key) : keyLe a b ∨ keyLe b a := by
  obtain ⟨a1, a2, a3, a4⟩ := a
  obtain ⟨b1, b2, b3, b4⟩ := b
  simp only [keyLe, keyLt, Prod.mk.injEq]
  omega

theorem keyLe_trans {a b c : Key} (h1 : keyLe a b) (h2 : keyLe b c) : keyLe a c := by
  obtain ⟨a1, a2, a3, a4⟩ := a
  obtain ⟨b1, b2, b3, b4⟩ := b
  obtain ⟨c1, c2, c3, c4⟩ := c
  simp only [keyLe, keyLt, Prod.mk.injEq] at *
  omega

theorem keyLt_not_keyLe {a b : Key} (h : keyLt a b) : ¬ keyLe b a := by
  obtain ⟨a1, a2, a3, a4⟩ := a
  obtain ⟨b1, b2, b3, b4⟩ := b
  simp only [keyLe, keyLt, Prod.mk.injEq] at *
  omega

/-- The sort key `_prioritize_links` computes for a candidate link. -/
def linkKey (b : Builder) (link : String) : Key :=
  ((if toPrioritize b link then 0 else 1),
   b.linkExpansionCount link, b.linkToFreq link, b.titleToNumTokens link)

/-- Ordering used by the sort in `_prioritize_links`: `x` may come before
`y` exactly when `x`'s key is lexicographically at least `y`'s
(`sorted(..., reverse=True)` on the key, which sorts descending and keeps
earlier elements of the input first among equal keys — so does a stable
insertion sort with this relation). -/
def priRel (b : Builder) (x y : String) : Prop :=
  keyLe (linkKey b y) (linkKey b x)

instance (b : Builder) : DecidableRel (priRel b) := fun x y => by
  unfold priRel; infer_instance

instance (b : Builder) : IsTotal String (priRel b) :=
  ⟨fun x y => by unfold priRel; exact keyLe_total (linkKey b y) (linkKey b x)⟩

instance (b : Builder) : IsTrans String (priRel b) :=
  ⟨fun _ _ _ hxy hyz => keyLe_trans hyz hxy⟩

/-- `DatasetBuilder._prioritize_links`: stable sort of the candidates,
descending by `linkKey`; the most preferred link (smallest key) ends up
last, where `_expand` pops. -/
def prioritizeLinks (b : Builder) (links : List String) : List String :=
  if links.isEmpty then links else List.insertionSort (priRel b) links

/-- `DatasetBuilder._get_links`: deduplicate the raw outgoing links
(`list(set(...))`; the set's enumeration order is unspecified in Python, and
every property proved below is insensitive to the pre-sort order), keep only
links whose article exists, then — only when `max_link_expansions_global` is
truthy (so neither `None` nor `0`) — drop links that reached the global
quota, and hand the result to the prioritizer. -/
def getLinks (b : Builder) (title : String) : List String :=
  let links := (b.titleToLinks title).dedup
  let links := links.filter (fun l => articleExists b l)
  let links :=
    if optTruthy b.maxLinkExpansionsGlobal then
      links.filter (fun l =>
        decide (b.linkExpansionCount l < b.maxLinkExpansionsGlobal.getD 0))
    else links
  prioritizeLinks b links

/-- The local-cap half of the `while` guard in `_expand`:
`max_link_expansions_local is None or n_links_expanded < cap`
(an explicit `is None` test, not truthiness, in the source). -/
def localCapAllows (b : Builder) (n : Nat) : Bool :=
  match b.maxLinkExpansionsLocal with
  | none => true
  | some cap => n < cap

/-- The `while` loop of `DatasetBuilder._expand`.  `links.pop()` removes the
LAST element of the prioritized list, so the loop consumes the prioritized
candidates from their end; the model reverses the list once (in `expand`)
and consumes it from the head.  The source checks the guard before the
emptiness test; both orders return the accumulated state unchanged, so the
`[]` case is collapsed.  Result tuple:
`(current_tokens, n_links_expanded, links_expanded, text)`. -/
def expandLoop (b : Builder) :
    List String → Nat → Nat → List String → String →
    Except String (Nat × Nat × List String × String)
  | [], ct, n, le, tx => Except.ok (ct, n, le, tx)
  | link :: rest, ct, n, le, tx =>
    if ct < b.maxTokens ∧ localCapAllows b n = true then
      if articleExists b link then
        match includeLinkText b (getArticleText b link) tx with
        | Except.error e => Except.error e
        | Except.ok tx2 =>
          expandLoop b rest (ct + b.titleToNumTokens link) (n + 1)
            (le ++ [link]) tx2
      else
        expandLoop b rest ct n le tx
    else
      Except.ok (ct, n, le, tx)

/-- `DatasetBuilder._expand`: fetch the prioritized candidates, run the
expansion loop, and package the sample. -/
def expand (b : Builder) (title text : String) : Except String Sample :=
  match expandLoop b (getLinks b title).reverse (b.titleToNumTokens title) 0 [] text with
  | Except.error e => Except.error e
  | Except.ok (ct, n, le, tx) =>
    Except.ok { title := title, n_tokens := ct, links_expanded := le,
                n_links_expanded := n, expanded_text := tx }

/-- One `self.link_expansion_count[link] += 1` step of
`_track_expanded_links`, as a counter update. -/
def bumpCount (f : String → Nat) (link : String) : String → Nat :=
  fun l => if l = link then f l + 1 else f l

/-- `DatasetBuilder._track_expanded_links`: bump the expansion counter of
every link of the accepted sample, in order. -/
def trackExpandedLinks (b : Builder) (links : List String) : Builder :=
  { b with linkExpansionCount := links.foldl bumpCount b.linkExpansionCount }

/-- `DatasetBuilder._append_sample`: write the sample to the dataset file and
bump `dataset_length`. -/
def appendSample (b : Builder) (s : Sample) : Builder :=
  { b with samples := b.samples ++ [s], datasetLength := b.datasetLength + 1 }

/-- The `dataset_done` test of `_build_dataset`:
`max_dataset_length and dataset_length >= max_dataset_length`
(truthiness on the configured value). -/
def datasetDone (b : Builder) : Bool :=
  match b.maxDatasetLength with
  | none => false
  | some m => m != 0 && decide (m ≤ b.datasetLength)

/-- One iteration of the `for` loop in `_build_dataset`: expand the title,
apply the `[min_tokens, max_tokens]` acceptance window (a rejected sample is
skipped silently and, because of the `continue`, skips the `dataset_done`
check too), record considered links in pass 0, track expanded links, and
emit the sample in pass 1 only.  Returns the updated state together with the
`dataset_done` flag. -/
def processTitle (iteration : Nat) (b : Builder) (title text : String) :
    Except String (Builder × Bool) :=
  match expand b title text with
  | Except.error e => Except.error e
  | Except.ok sample =>
    if b.minTokens ≤ sample.n_tokens ∧ sample.n_tokens ≤ b.maxTokens then
      let b1 :=
        if iteration == 0 then
          { b with allLinksConsidered :=
              fun l => b.allLinksConsidered l || decide (l ∈ b.titleToLinks title) }
        else b
      let b2 := trackExpandedLinks b1 sample.links_expanded
      let b3 := if iteration == 1 then appendSample b2 sample else b2
      Except.ok (b3, datasetDone b3)
    else
      Except.ok (b, false)

/-- `DatasetBuilder._build_dataset`: process the article rows in order,
stopping early when `dataset_done` fires.  A raised exception leaves the
state reached so far (the dataset file keeps what was already appended), so
the driver returns the state paired with the optional error. -/
def buildDataset (iteration : Nat) (b : Builder) :
    List (String × String) → Builder × Option String
  | [] => (b, none)
  | (title, text) :: rest =>
    match processTitle iteration b title text with
    | Except.error e => (b, some e)
    | Except.ok (b1, done) =>
      if done then (b1, none) else buildDataset iteration b1 rest

/-- `DatasetBuilder._init_dataset`: reset the per-pass counters.  The dataset
file persists across passes (it is only created if missing), so `samples` is
not reset. -/
def initDataset (b : Builder) : Builder :=
  { b with linkExpansionCount := fun _ => 0, datasetLength := 0 }

/-- The pass-boundary computation in `build_expanded_dataset`:
`links_considered_in_first_iteration_but_not_expanded =
all_links_considered − keys(link_expansion_count)` over the pass-0 final
counts (a `Counter` key is exactly a title with positive count). -/
def computeCarried (b : Builder) : Builder :=
  { b with carriedForward :=
      fun l => b.allLinksConsidered l && (b.linkExpansionCount l == 0) }

/-- `DatasetBuilder.build_expanded_dataset`: pass 0 (discovery), the carried-
forward set computation, then pass 1 (commit).  An exception propagates out
of the run immediately. -/
def buildExpandedDataset (b : Builder) : Builder × Option String :=
  let b0 := initDataset b
  match buildDataset 0 b0 b0.articles with
  | (b1, some e) => (b1, some e)
  | (b1, none) =>
    let b2 := initDataset (computeCarried b1)
    buildDataset 1 b2 b2.articles

/-- Fresh `DatasetBuilder` state right after `__init__`: empty counter,
empty carried-forward and considered sets, no samples. -/
def mkBuilder (articles : List (String × String)) (links : String → List String)
    (freq : String → Nat) (tokens : String → Nat) (minT maxT : Nat)
    (maxDS maxLocal maxGlobal : Option Nat) (strategy : String) : Builder :=
  { titleToLinks := links, linkToFreq := freq, titleToNumTokens := tokens,
    articles := articles, minTokens := minT, maxTokens := maxT,
    maxDatasetLength := maxDS, maxLinkExpansionsLocal := maxLocal,
    maxLinkExpansionsGlobal := maxGlobal, includeStrategy := strategy,
    linkExpansionCount := fun _ => 0, datasetLength := 0,
    carriedForward := fun _ => false, allLinksConsidered := fun _ => false,
    samples := [] }

/-! ### Concrete corpora used by the evaluations, counterexamples and witnesses -/

/-- Scenario A of the spec: `A` (3 tokens) links to `B` (5 tokens) and `C`
(2 tokens), threshold 8, no caps, strategy `prepend`, empty carried-forward
set; `B` and `C` each have global frequency 1 (both are linked once). -/
def scenarioBuilder : Builder :=
  mkBuilder [("A", "A_text"), ("B", "B_text"), ("C", "C_text")]
    (fun t => if t = "A" then ["B", "C"] else [])
    (fun t => if t = "B" then 1 else if t = "C" then 1 else 0)
    (fun t => if t = "A" then 3 else if t = "B" then 5 else if t = "C" then 2 else 0)
    0 8 none none none "prepend"

/-- A one-article corpus whose article links to itself. -/
def selfLinkBuilder : Builder :=
  mkBuilder [("A", "A_text")] (fun t => if t = "A" then ["A"] else [])
    (fun _ => 1) (fun t => if t = "A" then 3 else 0) 0 8 none none none "prepend"

/-- `A` links to `B`, with `max_link_expansions_global = 0` configured. -/
def quotaZeroBuilder : Builder :=
  mkBuilder [("A", "A_text"), ("B", "B_text")] (fun t => if t = "A" then ["B"] else [])
    (fun _ => 1) (fun _ => 1) 0 10 none none (some 0) "prepend"

/-- `A` links to `B`, with the expansion threshold `max_tokens = 0`. -/
def thresholdZeroBuilder : Builder :=
  mkBuilder [("A", "A_text"), ("B", "B_text")] (fun t => if t = "A" then ["B"] else [])
    (fun _ => 1) (fun _ => 1) 0 0 none none none "prepend"

/-- Four-article corpus driving the C1 counterexample.  With a local cap of
one expansion per sample: in pass 0, `E` expands `D` (rarer than `X`) and
`D` expands `Y`, so `X` is considered but never expanded and the
carried-forward set is exactly `{X}`; in pass 1, `E` (processed first)
expands the carried-forward `X`, so when `D` is processed, `X` is an
eligible carried-forward candidate with expansion count 1 while `Y` has
count 0. -/
def cexOneStart : Builder :=
  mkBuilder [("E", "E_text"), ("D", "D_text"), ("X", "X_text"), ("Y", "Y_text")]
    (fun t => if t = "E" then ["X", "D"] else if t = "D" then ["X", "Y"] else [])
    (fun t => if t = "X" then 2 else if t = "D" then 1 else if t = "Y" then 1 else 0)
    (fun _ => 1)
    0 20 none (some 1) none "prepend"

/-- The state of the C1 corpus after pass 0. -/
def cexOnePassZero : Builder :=
  (buildDataset 0 (initDataset cexOneStart) cexOneStart.articles).1

/-- The state of the C1 corpus at the start of pass 1 (carried-forward set
computed, counters reset). -/
def cexOneMid : Builder := initDataset (computeCarried cexOnePassZero)

/-- The state of the C1 corpus in pass 1 just before title `D` is
processed (title `E` has been processed and has expanded `X`). -/
def cexOneBeforeD : Builder :=
  ((processTitle 1 cexOneMid "E" "E_text").toOption.getD (cexOneMid, false)).1

/-- `D` links to `X` and `Y`; `X` is in the carried-forward set with
expansion count 0, `Y` is not in the set; no caps. -/
def carriedBuilder : Builder :=
  { (mkBuilder [("D", "D_text"), ("X", "X_text"), ("Y", "Y_text")]
      (fun t => if t = "D" then ["X", "Y"] else [])
      (fun _ => 1) (fun _ => 1) 0 100 none none none "prepend")
    with carriedForward := fun l => l == "X" }

/-- A corpus with no links at all, configured with the invalid include
strategy `"bogus"`. -/
def bogusBuilder : Builder :=
  mkBuilder [("A", "A_text")] (fun _ => []) (fun _ => 0)
    (fun t => if t = "A" then 3 else 0) 0 100 none none none "bogus"

/-- Two linkless articles with `max_dataset_length = 1`. -/
def mdlBuilder : Builder :=
  mkBuilder [("A", "A_text"), ("B", "B_text")] (fun _ => []) (fun _ => 0)
    (fun _ => 1) 0 100 (some 1) none none "prepend"

/-- `A` links to `B`, `max_link_expansions_global = 1`. -/
def quotaOneBuilder : Builder :=
  mkBuilder [("A", "A_text"), ("B", "B_text")] (fun t => if t = "A" then ["B"] else [])
    (fun _ => 1) (fun _ => 1) 0 10 none none (some 1) "prepend"

/-! ### General lemmas about the model -/

/-- The candidate links that the expansion loop actually keeps from a
consumed stack segment: those whose article exists. -/
def keptLinks (b : Builder) (l : List String) : List String :=
  l.filter (fun z => articleExists b z)

theorem foldl_bumpCount (ls : List String) :
    ∀ (f : String → Nat) (l : String),
      (ls.foldl bumpCount f) l = f l + ls.count l := by
  induction ls with
  | nil => intro f l; simp
  | cons a ls ih =>
    intro f l
    rw [List.foldl_cons, ih, List.count_cons]
    by_cases h : l = a
    · simp [bumpCount, h]
      omega
    · have hbeq : (a == l) = false := by
        simp [beq_iff_eq]; intro hc; exact h hc.symm
      simp [bumpCount, h, hbeq]

theorem trackExpandedLinks_count (b : Builder) (ls : List String) (l : String) :
    (trackExpandedLinks b ls).linkExpansionCount l
      = b.linkExpansionCount l + ls.count l :=
  foldl_bumpCount ls b.linkExpansionCount l

theorem prioritizeLinks_perm (b : Builder) (l : List String) :
    List.Perm (prioritizeLinks b l) l := by
  unfold prioritizeLinks
  split
  · exact List.Perm.refl _
  · exact List.perm_insertionSort _ _

theorem prioritizeLinks_sorted (b : Builder) (l : List String) :
    List.Sorted (priRel b) (prioritizeLinks b l) := by
  unfold prioritizeLinks
  split
  · rename_i h
    rw [List.isEmpty_iff] at h
    subst h
    exact List.sorted_nil
  · exact List.sorted_insertionSort _ _

theorem mem_prioritizeLinks {b : Builder} {l : List String} {x : String} :
    x ∈ prioritizeLinks b l ↔ x ∈ l :=
  (prioritizeLinks_perm b l).mem_iff

theorem mem_getLinks_exists {b : Builder} {t x : String}
    (h : x ∈ getLinks b t) : articleExists b x = true := by
  unfold getLinks at h
  rw [mem_prioritizeLinks] at h
  split at h
  · exact ((List.mem_filter.1 (List.mem_filter.1 h).1).2)
  · exact (List.mem_filter.1 h).2

theorem mem_getLinks_quota {b : Builder} {t x : String} {q : Nat}
    (hq : b.maxLinkExpansionsGlobal = some q) (h0 : q ≠ 0)
    (h : x ∈ getLinks b t) : b.linkExpansionCount x < q := by
  unfold getLinks at h
  rw [mem_prioritizeLinks] at h
  have htr : optTruthy b.maxLinkExpansionsGlobal = true := by
    rw [hq]; simpa [optTruthy] using h0
  rw [if_pos htr] at h
  have := (List.mem_filter.1 h).2
  rw [hq] at this
  simpa using this

theorem getLinks_nodup (b : Builder) (t : String) : (getLinks b t).Nodup := by
  unfold getLinks
  rw [(prioritizeLinks_perm b _).nodup_iff]
  split
  · exact ((b.titleToLinks t).nodup_dedup.filter _).filter _
  · exact (b.titleToLinks t).nodup_dedup.filter _

/-- Full characterisation of a successful run of the expansion loop: the
loop consumes some prefix `stack.take k` of the stack, splices exactly the
existing links of that prefix (in order), adds their token counts, counts
them, and — whenever at least one link was spliced — the tokens
accumulated before the final splice were below `max_tokens`, so the final
total is below `max_tokens` plus the final spliced link's token count. -/
theorem expandLoop_ok_spec (b : Builder) :
    ∀ (stack : List String) (ct n : Nat) (le : List String) (tx : String)
      {ct2 n2 : Nat} {le2 : List String} {tx2 : String},
      expandLoop b stack ct n le tx = Except.ok (ct2, n2, le2, tx2) →
      ∃ k, le2 = le ++ keptLinks b (stack.take k)
        ∧ ct2 = ct + ((keptLinks b (stack.take k)).map b.titleToNumTokens).sum
        ∧ n2 = n + (keptLinks b (stack.take k)).length
        ∧ ∀ z, (keptLinks b (stack.take k)).getLast? = some z →
            ct2 < b.maxTokens + b.titleToNumTokens z := by
  intro stack
  induction stack with
  | nil =>
    intro ct n le tx ct2 n2 le2 tx2 h
    refine ⟨0, ?_⟩
    unfold expandLoop at h
    simp only [Except.ok.injEq, Prod.mk.injEq] at h
    obtain ⟨h1, h2, h3, _⟩ := h
    simp [keptLinks, ← h1, ← h2, ← h3]
  | cons link rest ih =>
    intro ct n le tx ct2 n2 le2 tx2 h
    unfold expandLoop at h
    split at h
    · rename_i hguard
      split at h
      · rename_i hex
        split at h
        · exact absurd h (by simp)
        · obtain ⟨k, hle, hct, hn, hlast⟩ := ih _ _ _ _ h
          have hk : keptLinks b ((link :: rest).take (k + 1))
              = link :: keptLinks b (rest.take k) := by
            simp [keptLinks, List.filter_cons, hex]
          refine ⟨k + 1, ?_, ?_, ?_, ?_⟩
          · rw [hk, hle]
            simp
          · rw [hk, hct]
            simp
            omega
          · rw [hk, hn]
            simp
            omega
          · intro z hz
            rw [hk] at hz
            cases hrest : keptLinks b (rest.take k) with
            | nil =>
              rw [hrest] at hz
              simp only [List.getLast?_singleton, Option.some.injEq] at hz
              have hc : ct2 = ct + b.titleToNumTokens link := by
                rw [hct, hrest]; simp
              rw [← hz]
              omega
            | cons w ws =>
              rw [hrest] at hz
              rw [List.getLast?_cons_cons] at hz
              rw [← hrest] at hz
              exact hlast z hz
      · rename_i hex
        obtain ⟨k, hle, hct, hn, hlast⟩ := ih _ _ _ _ h
        have hk : keptLinks b ((link :: rest).take (k + 1))
            = keptLinks b (rest.take k) := by
          simp [keptLinks, List.filter_cons, hex]
        exact ⟨k + 1, by rw [hk]; exact hle, by rw [hk]; exact hct,
               by rw [hk]; exact hn, by rw [hk]; exact hlast⟩
    · refine ⟨0, ?_⟩
      simp only [Except.ok.injEq, Prod.mk.injEq] at h
      obtain ⟨h1, h2, h3, _⟩ := h
      simp [keptLinks, ← h1, ← h2, ← h3]

/-- Unpacked characterisation of a successful `_expand`: the sample's title,
the consumed-stack shape of `links_expanded`, the token-count and
link-count invariants, and the overshoot bound for the final spliced
link. -/
theorem expand_ok_parts {b : Builder} {t x : String} {s : Sample}
    (h : expand b t x = Except.ok s) :
    s.title = t
    ∧ (∃ k, s.links_expanded = keptLinks b (((getLinks b t).reverse).take k))
    ∧ s.n_tokens = b.titleToNumTokens t
        + (s.links_expanded.map b.titleToNumTokens).sum
    ∧ s.n_links_expanded = s.links_expanded.length
    ∧ ∀ z, s.links_expanded.getLast? = some z →
        s.n_tokens < b.maxTokens + b.titleToNumTokens z := by
  unfold expand at h
  split at h
  · exact absurd h (by simp)
  · rename_i ct n le tx heq
    simp only [Except.ok.injEq] at h
    obtain ⟨k, hle, hct, hn, hlast⟩ := expandLoop_ok_spec b _ _ _ _ _ heq
    rw [List.nil_append] at hle
    subst h
    refine ⟨rfl, ⟨k, hle⟩, by rw [hct, hle], ?_, by rw [← hle] at hlast; exact hlast⟩
    rw [hn, hle]
    simp

theorem expand_links_sublist {b : Builder} {t x : String} {s : Sample}
    (h : expand b t x = Except.ok s) :
    List.Sublist s.links_expanded ((getLinks b t).reverse) := by
  obtain ⟨-, ⟨k, hle⟩, -⟩ := expand_ok_parts h
  rw [hle]
  exact (List.filter_sublist _).trans (List.take_sublist _ _)

theorem expand_links_mem {b : Builder} {t x : String} {s : Sample}
    (h : expand b t x = Except.ok s) {l : String}
    (hl : l ∈ s.links_expanded) : l ∈ getLinks b t := by
  have := (expand_links_sublist h).subset hl
  rwa [List.mem_reverse] at this

theorem expand_links_nodup {b : Builder} {t x : String} {s : Sample}
    (h : expand b t x = Except.ok s) : s.links_expanded.Nodup :=
  (expand_links_sublist h).nodup (List.nodup_reverse.2 (getLinks_nodup b t))

/-- Two positions of a list give a two-element sublist. -/
theorem pair_sublist_of_getElem {α : Type} {L : List α} {x y : α} {i j : Nat}
    (hi : i < L.length) (hj : j < L.length) (hij : i < j)
    (hxi : L[i] = x) (hyj : L[j] = y) : List.Sublist [x, y] L := by
  have hmem : y ∈ L.drop (i + 1) := by
    have hlt : j - (i + 1) < (L.drop (i + 1)).length := by
      rw [List.length_drop]; omega
    have hg : (L.drop (i + 1))[j - (i + 1)] = y := by
      rw [List.getElem_drop]
      have : i + 1 + (j - (i + 1)) = j := by omega
      simp only [this]
      exact hyj
    rw [← hg]
    exact List.getElem_mem hlt
  have h1 : List.Sublist [y] (L.drop (i + 1)) := List.singleton_sublist.2 hmem
  have h2 : List.Sublist [x, y] (x :: L.drop (i + 1)) := h1.cons₂ x
  have h3 : x :: L.drop (i + 1) = L.drop i := by
    rw [← hxi]; exact List.getElem_cons_drop L i hi
  rw [h3] at h2
  exact h2.trans (List.drop_sublist i L)

/-- Keys are non-decreasing along the stack the engine pops from (the
reverse of the prioritizer's output). -/
theorem stack_keys_ascending (b : Builder) (t : String) {i j : Nat}
    (hi : i < ((getLinks b t).reverse).length)
    (hj : j < ((getLinks b t).reverse).length) (hij : i < j) :
    keyLe (linkKey b (((getLinks b t).reverse)[i]))
      (linkKey b (((getLinks b t).reverse)[j])) := by
  have hsorted : List.Sorted (priRel b) (getLinks b t) := by
    unfold getLinks
    exact prioritizeLinks_sorted b _
  have hpr : ((getLinks b t).reverse).Pairwise (fun a c => priRel b c a) :=
    List.pairwise_reverse.2 hsorted
  have := List.pairwise_iff_getElem.1 hpr i j hi hj hij
  exact this

/-- If `x`'s sort key is strictly below `y`'s, the engine pops `x` first:
whenever `y` was spliced at all, `x` was spliced earlier in the same
sample. -/
theorem expand_lower_key_first {b : Builder} {t x0 x y : String} {s : Sample}
    (hk : keyLt (linkKey b x) (linkKey b y))
    (hx : x ∈ getLinks b t)
    (hs : expand b t x0 = Except.ok s)
    (hy : y ∈ s.links_expanded) :
    List.Sublist [x, y] s.links_expanded := by
  obtain ⟨-, ⟨k, hle⟩, -⟩ := expand_ok_parts hs
  have hexx : articleExists b x = true := mem_getLinks_exists hx
  have hexy : articleExists b y = true := by
    rw [hle] at hy
    exact (List.mem_filter.1 hy).2
  -- position of y inside the consumed prefix
  have hyT : y ∈ ((getLinks b t).reverse).take k := by
    rw [hle] at hy
    exact List.mem_of_mem_filter hy
  obtain ⟨j, hjlen, hjy⟩ := List.mem_iff_getElem.1 hyT
  have hjL : j < ((getLinks b t).reverse).length := by
    have := hjlen
    rw [List.length_take] at this
    omega
  have hjyL : ((getLinks b t).reverse)[j] = y := by
    rw [← hjy]
    exact (List.getElem_take _).symm
  -- position of x in the stack
  have hxL : x ∈ (getLinks b t).reverse := List.mem_reverse.2 hx
  obtain ⟨i, hilen, hix⟩ := List.mem_iff_getElem.1 hxL
  -- x must come strictly before y in the stack
  have hij : i < j := by
    rcases Nat.lt_trichotomy i j with h | h | h
    · exact h
    · exfalso
      subst h
      have hxy : x = y := by rw [← hix]; exact hjyL
      subst hxy
      exact keyLt_irrefl _ hk
    · exfalso
      exact keyLt_not_keyLe hk
        (by have := stack_keys_ascending b t hjL hilen h
            rw [hix, hjyL] at this
            exact this)
  -- build the sublist inside the consumed prefix, then filter
  have hiT : i < (((getLinks b t).reverse).take k).length := by
    rw [List.length_take] at hjlen ⊢
    omega
  have hixT : (((getLinks b t).reverse).take k)[i] = x := by
    rw [List.getElem_take]
    exact hix
  have hpair : List.Sublist [x, y] (((getLinks b t).reverse).take k) :=
    pair_sublist_of_getElem hiT hjlen hij hixT hjy
  have hfil := hpair.filter (fun z => articleExists b z)
  have : List.filter (fun z => articleExists b z) [x, y] = [x, y] := by
    simp [hexx, hexy]
  rw [this] at hfil
  rw [hle]
  exact hfil

/-- `processTitle` never changes the run-level configuration fields. -/
theorem processTitle_config {it : Nat} {b : Builder} {t x : String}
    {b1 : Builder} {dn : Bool}
    (h : processTitle it b t x = Except.ok (b1, dn)) :
    b1.minTokens = b.minTokens ∧ b1.maxTokens = b.maxTokens
    ∧ b1.maxDatasetLength = b.maxDatasetLength
    ∧ b1.maxLinkExpansionsGlobal = b.maxLinkExpansionsGlobal := by
  unfold processTitle at h
  split at h
  · exact absurd h (by simp)
  · split at h
    · simp only [Except.ok.injEq, Prod.mk.injEq] at h
      obtain ⟨hb, -⟩ := h
      subst hb
      by_cases h0 : (it == 0) = true <;> by_cases h1 : (it == 1) = true <;>
        simp [h0, h1, trackExpandedLinks, appendSample]
    · simp only [Except.ok.injEq, Prod.mk.injEq] at h
      obtain ⟨hb, -⟩ := h
      subst hb
      exact ⟨rfl, rfl, rfl, rfl⟩

/-- Shape of one driver step: a rejected sample leaves the state unchanged
with a false flag; an accepted sample yields the flag `datasetDone` of the
new state.  In both cases the new sample list is either unchanged or has
exactly the accepted sample appended — and appending happens only in
pass 1, with the sample inside the acceptance window. -/
theorem processTitle_shape {it : Nat} {b : Builder} {t x : String}
    {b1 : Builder} {dn : Bool}
    (h : processTitle it b t x = Except.ok (b1, dn)) :
    ((b1 = b ∧ dn = false) ∨ dn = datasetDone b1)
    ∧ (b1.samples = b.samples ∨
        ∃ s, expand b t x = Except.ok s ∧ b1.samples = b.samples ++ [s]
          ∧ b.minTokens ≤ s.n_tokens ∧ s.n_tokens ≤ b.maxTokens ∧ it = 1)
    ∧ (b1.datasetLength = b.datasetLength ∨ b1.datasetLength = b.datasetLength + 1) := by
  unfold processTitle at h
  split at h
  · exact absurd h (by simp)
  · rename_i s hs
    split at h
    · rename_i hacc
      simp only [Except.ok.injEq, Prod.mk.injEq] at h
      obtain ⟨hb, hdn⟩ := h
      subst hb
      refine ⟨Or.inr hdn.symm, ?_, ?_⟩
      · by_cases h1 : (it == 1) = true
        · right
          have e1 : it = 1 := by simpa using h1
          have h0 : (it == 0) = false := by subst e1; rfl
          refine ⟨s, hs, ?_, hacc.1, hacc.2, e1⟩
          simp [h0, h1, trackExpandedLinks, appendSample]
        · left
          by_cases h0 : (it == 0) = true <;>
            simp [h0, h1, trackExpandedLinks, appendSample]
      · by_cases h1 : (it == 1) = true <;>
          · by_cases h0 : (it == 0) = true <;>
              simp [h0, h1, trackExpandedLinks, appendSample]
    · simp only [Except.ok.injEq, Prod.mk.injEq] at h
      obtain ⟨hb, hdn⟩ := h
      subst hb
      exact ⟨Or.inl ⟨rfl, hdn.symm⟩, Or.inl rfl, Or.inl rfl⟩

/-- Counter effect of one driver step: counts are unchanged (rejected
sample) or increased by exactly the accepted sample's expanded links. -/
theorem processTitle_counts {it : Nat} {b : Builder} {t x : String}
    {b1 : Builder} {dn : Bool}
    (h : processTitle it b t x = Except.ok (b1, dn)) :
    (∀ l, b1.linkExpansionCount l = b.linkExpansionCount l) ∨
    (∃ s, expand b t x = Except.ok s ∧
      ∀ l, b1.linkExpansionCount l
        = b.linkExpansionCount l + s.links_expanded.count l) := by
  unfold processTitle at h
  split at h
  · exact absurd h (by simp)
  · rename_i s hs
    split at h
    · simp only [Except.ok.injEq, Prod.mk.injEq] at h
      obtain ⟨hb, -⟩ := h
      subst hb
      right
      refine ⟨s, hs, fun l => ?_⟩
      by_cases h0 : (it == 0) = true <;> by_cases h1 : (it == 1) = true <;>
        simp [h0, h1, trackExpandedLinks, appendSample, foldl_bumpCount]
    · simp only [Except.ok.injEq, Prod.mk.injEq] at h
      obtain ⟨hb, -⟩ := h
      subst hb
      exact Or.inl fun l => rfl

/-- Pass 0 of the driver never appends a sample to the dataset file,
whether it finishes, stops early or aborts with an exception. -/
theorem buildDataset_zero_samples :
    ∀ (rows : List (String × String)) (b : Builder),
      ((buildDataset 0 b rows).1).samples = b.samples := by
  intro rows
  induction rows with
  | nil => intro b; rfl
  | cons r rest ih =>
    intro b
    obtain ⟨t, x⟩ := r
    unfold buildDataset
    split
    · rfl
    · rename_i b1 dn hstep
      have hsm := (processTitle_shape hstep).2.1
      have hsm2 : b1.samples = b.samples := by
        rcases hsm with h | ⟨s, -, -, -, -, hit⟩
        · exact h
        · exact absurd hit (by omega)
      split
      · exact hsm2
      · rw [ih b1, hsm2]

/-- Every sample that the driver adds to the dataset file lies inside the
acceptance window `[min_tokens, max_tokens]` of the state it was accepted
from (the window is a fixed configuration, preserved by every step). -/
theorem buildDataset_samples_window (it : Nat) :
    ∀ (rows : List (String × String)) (b : Builder) (s : Sample),
      s ∈ ((buildDataset it b rows).1).samples →
      s ∈ b.samples ∨ (b.minTokens ≤ s.n_tokens ∧ s.n_tokens ≤ b.maxTokens) := by
  intro rows
  induction rows with
  | nil => intro b s hs; exact Or.inl hs
  | cons r rest ih =>
    intro b s hs
    obtain ⟨t, x⟩ := r
    unfold buildDataset at hs
    split at hs
    · exact Or.inl hs
    · rename_i b1 dn hstep
      have hcfg := processTitle_config hstep
      have hsm := (processTitle_shape hstep).2.1
      have hnew : s ∈ b1.samples →
          s ∈ b.samples ∨ (b.minTokens ≤ s.n_tokens ∧ s.n_tokens ≤ b.maxTokens) := by
        intro h1
        rcases hsm with hup | ⟨s2, -, hup, hmin, hmax, -⟩
        · rw [hup] at h1; exact Or.inl h1
        · rw [hup, List.mem_append] at h1
          rcases h1 with h1 | h1
          · exact Or.inl h1
          · right
            simp only [List.mem_singleton] at h1
            subst h1
            exact ⟨hmin, hmax⟩
      split at hs
      · exact hnew hs
      · rcases ih b1 s hs with h1 | h1
        · exact hnew h1
        · right
          rw [hcfg.1, hcfg.2.1] at h1
          exact h1

/-- Global-quota invariant of a pass: if every counter is at most `q` when
the pass state is entered, it stays at most `q` after the driver has
processed any list of titles (the per-title filter admits only links with
count strictly below `q`, and an accepted sample bumps each of its distinct
links once). -/
theorem buildDataset_quota_invariant {q : Nat} (hq0 : 0 < q) :
    ∀ (rows : List (String × String)) (it : Nat) (b : Builder),
      b.maxLinkExpansionsGlobal = some q →
      (∀ l, b.linkExpansionCount l ≤ q) →
      ∀ l, ((buildDataset it b rows).1).linkExpansionCount l ≤ q := by
  intro rows
  induction rows with
  | nil => intro it b _ hinv l; exact hinv l
  | cons r rest ih =>
    intro it b hq hinv l
    obtain ⟨t, x⟩ := r
    unfold buildDataset
    split
    · exact hinv l
    · rename_i b1 dn hstep
      have hq1 : b1.maxLinkExpansionsGlobal = some q := by
        rw [(processTitle_config hstep).2.2.2, hq]
      have hinv1 : ∀ l2, b1.linkExpansionCount l2 ≤ q := by
        intro l2
        rcases processTitle_counts hstep with hsame | ⟨s, hexp, hcount⟩
        · rw [hsame l2]; exact hinv l2
        · rw [hcount l2]
          by_cases hmem : l2 ∈ s.links_expanded
          · have hlt : b.linkExpansionCount l2 < q :=
              mem_getLinks_quota hq (by omega) (expand_links_mem hexp hmem)
            have hone : s.links_expanded.count l2 ≤ 1 :=
              List.nodup_iff_count_le_one.1 (expand_links_nodup hexp) l2
            omega
          · rw [List.count_eq_zero.2 hmem]
            exact hinv l2
      split
      · exact hinv1 l
      · exact ih it b1 hq1 hinv1 l

/-- If a pass-1 step pushes `dataset_length` from below the configured
maximum to at least it, the driver stops right there: the remaining rows
are never processed and the state after that step is final. -/
theorem buildDataset_stop {b : Builder} {t x : String} {b1 : Builder}
    {dn : Bool} {m : Nat}
    (hm : b.maxDatasetLength = some m) (hm0 : 0 < m)
    (hlt : b.datasetLength < m)
    (hstep : processTitle 1 b t x = Except.ok (b1, dn))
    (hge : m ≤ b1.datasetLength) (rest : List (String × String)) :
    buildDataset 1 b ((t, x) :: rest) = (b1, none) := by
  have hdn : dn = true := by
    rcases (processTitle_shape hstep).1 with ⟨hb, -⟩ | hdd
    · subst hb; omega
    · rw [hdd]
      unfold datasetDone
      rw [(processTitle_config hstep).2.2.1, hm]
      simp
      omega
  subst hdn
  unfold buildDataset
  rw [hstep]
  simp

theorem includeLinkText_invalid {b : Builder}
    (h1 : b.includeStrategy ≠ "append") (h2 : b.includeStrategy ≠ "prepend")
    (la tx : String) :
    includeLinkText b la tx
      = Except.error ("Invalid include strategy: " ++ b.includeStrategy) := by
  unfold includeLinkText
  simp [h1, h2]

/-- Under an invalid include strategy the loop errors at the first splice,
so a run that returns at all spliced nothing. -/
theorem expandLoop_invalid_no_splice {b : Builder}
    (h1 : b.includeStrategy ≠ "append") (h2 : b.includeStrategy ≠ "prepend") :
    ∀ (stack : List String) (ct n : Nat) (le : List String) (tx : String)
      {ct2 n2 : Nat} {le2 : List String} {tx2 : String},
      expandLoop b stack ct n le tx = Except.ok (ct2, n2, le2, tx2) →
      le2 = le := by
  intro stack
  induction stack with
  | nil =>
    intro ct n le tx ct2 n2 le2 tx2 h
    unfold expandLoop at h
    simp only [Except.ok.injEq, Prod.mk.injEq] at h
    exact h.2.2.1.symm
  | cons link rest ih =>
    intro ct n le tx ct2 n2 le2 tx2 h
    unfold expandLoop at h
    split at h
    · split at h
      · rw [includeLinkText_invalid h1 h2] at h
        exact absurd h (by simp)
      · exact ih _ _ _ _ h
    · simp only [Except.ok.injEq, Prod.mk.injEq] at h
      exact h.2.2.1.symm

theorem expand_invalid_no_splice {b : Builder}
    (h1 : b.includeStrategy ≠ "append") (h2 : b.includeStrategy ≠ "prepend")
    {t x : String} {s : Sample} (hs : expand b t x = Except.ok s) :
    s.links_expanded = [] := by
  unfold expand at hs
  split at hs
  · exact absurd hs (by simp)
  · rename_i ct n le tx heq
    simp only [Except.ok.injEq] at hs
    subst hs
    exact expandLoop_invalid_no_splice h1 h2 _ _ _ _ _ heq

/-! ### Claim theorems -/

/-- The sample that expanding Scenario A's article `A` produces. -/
def scenarioSample : Sample :=
  { title := "A", n_tokens := 10, links_expanded := ["C", "B"],
    n_links_expanded := 2, expanded_text := "B_text\n\nC_text\n\nA_text" }

set_option maxHeartbeats 4000000 in
/-- C1 counterexample: in a reachable pass-1 state of the `cexOneStart`
corpus, article `D`'s candidate list contains the eligible carried-forward
link `X` (already expanded once earlier in pass 1) and the eligible
non-carried link `Y`; the engine expands `Y` and not `X`, so a link in
`links_considered_in_first_iteration_but_not_expanded` is NOT always
expanded before a link outside that set — membership alone does not grant
priority once the link's pass-1 expansion count is nonzero. -/
theorem carriedForwardPromotion_cex :
    cexOneBeforeD.carriedForward "X" = true
    ∧ cexOneBeforeD.carriedForward "Y" = false
    ∧ cexOneBeforeD.linkExpansionCount "X" = 1
    ∧ getLinks cexOneBeforeD "D" = ["X", "Y"]
    ∧ expand cexOneBeforeD "D" "D_text"
        = Except.ok { title := "D", n_tokens := 2, links_expanded := ["Y"],
                      n_links_expanded := 1, expanded_text := "Y_text\n\nD_text" } :=
  ⟨rfl, rfl, rfl, rfl, rfl⟩

/-- C1 (amended): a carried-forward candidate is expanded before any
candidate outside the set only when its current expansion count is zero:
if `x` is an eligible candidate of the carried-forward set with expansion
count 0 and `y` is a candidate outside the set, then whenever the engine
expanded `y`, it expanded `x` earlier in the same sample. -/
theorem carriedForwardPromotion_amended {b : Builder} {t x0 x y : String}
    {s : Sample}
    (hx : x ∈ getLinks b t) (hcx : b.carriedForward x = true)
    (hc0 : b.linkExpansionCount x = 0)
    (hcy : b.carriedForward y = false)
    (hs : expand b t x0 = Except.ok s)
    (hy : y ∈ s.links_expanded) :
    List.Sublist [x, y] s.links_expanded := by
  apply expand_lower_key_first ?_ hx hs hy
  have hpx : toPrioritize b x = true := by simp [toPrioritize, hcx, hc0]
  have hpy : toPrioritize b y = false := by simp [toPrioritize, hcy]
  simp [linkKey, keyLt, hpx, hpy]

/-- Witness for the amended C1 at the `carriedBuilder` corpus. -/
theorem carriedForwardPromotion_amended_witness :
    List.Sublist ["X", "Y"]
      (Sample.links_expanded
        { title := "D", n_tokens := 3, links_expanded := ["X", "Y"],
          n_links_expanded := 2, expanded_text := "Y_text\n\nX_text\n\nD_text" }) :=
  @carriedForwardPromotion_amended carriedBuilder "D" "D_text" "X" "Y"
    { title := "D", n_tokens := 3, links_expanded := ["X", "Y"],
      n_links_expanded := 2, expanded_text := "Y_text\n\nX_text\n\nD_text" }
    (by decide) rfl rfl rfl rfl (by decide)

/-- C2 counterexample: in Scenario A, candidates `B` and `C` tie on
carried-forward membership, expansion count and global frequency, and `C`
has strictly fewer tokens than `B`; the engine expands `C` FIRST
(`links_expanded = ["C", "B"]`), so among full ties on the first three key
components the link with the SMALLER token count is expanded first, not
the greater one. -/
theorem tieBreakTokenCount_cex :
    toPrioritize scenarioBuilder "B" = toPrioritize scenarioBuilder "C"
    ∧ scenarioBuilder.linkExpansionCount "B" = scenarioBuilder.linkExpansionCount "C"
    ∧ scenarioBuilder.linkToFreq "B" = scenarioBuilder.linkToFreq "C"
    ∧ scenarioBuilder.titleToNumTokens "C" < scenarioBuilder.titleToNumTokens "B"
    ∧ getLinks scenarioBuilder "A" = ["B", "C"]
    ∧ expand scenarioBuilder "A" "A_text" = Except.ok scenarioSample :=
  ⟨rfl, rfl, rfl, by decide, rfl, rfl⟩

/-- C2 (amended): among eligible candidates of the same article that tie on
carried-forward flag, expansion count and global frequency, the link with
the SMALLER token count is expanded first (the sort is descending on the
4-tuple and the engine pops from the end of the returned sequence). -/
theorem tieBreakTokenCount_amended {b : Builder} {t x0 x y : String} {s : Sample}
    (hx : x ∈ getLinks b t)
    (hp : toPrioritize b x = toPrioritize b y)
    (hcnt : b.linkExpansionCount x = b.linkExpansionCount y)
    (hfrq : b.linkToFreq x = b.linkToFreq y)
    (htok : b.titleToNumTokens x < b.titleToNumTokens y)
    (hs : expand b t x0 = Except.ok s)
    (hy : y ∈ s.links_expanded) :
    List.Sublist [x, y] s.links_expanded := by
  apply expand_lower_key_first ?_ hx hs hy
  simp only [linkKey, keyLt]
  exact Or.inr ⟨by rw [hp], Or.inr ⟨hcnt, Or.inr ⟨hfrq, htok⟩⟩⟩

/-- Witness for the amended C2 at Scenario A: `C` (2 tokens) is expanded
before `B` (5 tokens). -/
theorem tieBreakTokenCount_amended_witness :
    List.Sublist ["C", "B"] (Sample.links_expanded scenarioSample) :=
  @tieBreakTokenCount_amended scenarioBuilder "A" "A_text" "C" "B"
    scenarioSample (by decide) rfl rfl rfl (by decide) rfl (by decide)

/-- C3: every sample produced by a successful `_expand` satisfies
`n_tokens = token_count(origin) + sum of token counts of links_expanded`
and `n_links_expanded = len(links_expanded)` (token counts are total in
the model, matching the claim's assumption that every corpus article has
one). -/
theorem sampleTokenInvariant {b : Builder} {t x : String} {s : Sample}
    (h : expand b t x = Except.ok s) :
    s.n_tokens = b.titleToNumTokens t
        + (s.links_expanded.map b.titleToNumTokens).sum
    ∧ s.n_links_expanded = s.links_expanded.length := by
  obtain ⟨-, -, h1, h2, -⟩ := expand_ok_parts h
  exact ⟨h1, h2⟩

/-- Witness for C3 at Scenario A: `10 = 3 + (2 + 5)` and `2 = 2`. -/
theorem sampleTokenInvariant_witness :
    scenarioSample.n_tokens = scenarioBuilder.titleToNumTokens "A"
        + (scenarioSample.links_expanded.map scenarioBuilder.titleToNumTokens).sum
    ∧ scenarioSample.n_links_expanded = scenarioSample.links_expanded.length :=
  @sampleTokenInvariant scenarioBuilder "A" "A_text" scenarioSample rfl

/-- C4: Scenario A evaluates exactly as the claim states: `C` is spliced
first, then `B`; `n_tokens = 10`, `links_expanded = [C, B]`, and
`expanded_text = "B_text\n\nC_text\n\nA_text"` under `prepend`. -/
theorem scenarioAExpansion :
    expand scenarioBuilder "A" "A_text" = Except.ok scenarioSample := rfl

/-- C5: pass 0 appends no samples (samples are emitted only in pass 1);
`_init_dataset` resets the expansion counters and `dataset_length` to zero
at the start of each pass; and in pass 1, the step that brings
`dataset_length` up to a configured `max_dataset_length` ends the pass
immediately — the remaining titles are not processed and the state after
that step is final. -/
theorem twoPassEmission :
    (∀ (b : Builder) (rows : List (String × String)),
      ((buildDataset 0 b rows).1).samples = b.samples)
    ∧ (∀ b : Builder, (initDataset b).datasetLength = 0
        ∧ ∀ l, (initDataset b).linkExpansionCount l = 0)
    ∧ (∀ (b b1 : Builder) (t x : String) (dn : Bool) (m : Nat)
        (rest : List (String × String)),
        b.maxDatasetLength = some m → 0 < m → b.datasetLength < m →
        processTitle 1 b t x = Except.ok (b1, dn) → m ≤ b1.datasetLength →
        buildDataset 1 b ((t, x) :: rest) = (b1, none)) :=
  ⟨fun b rows => buildDataset_zero_samples rows b,
   fun _ => ⟨rfl, fun _ => rfl⟩,
   fun _ b1 t x dn m rest hm hm0 hlt hstep hge =>
     buildDataset_stop hm hm0 hlt hstep hge rest⟩

/-- The pass-1 state of the `mdlBuilder` corpus after its first accepted
sample. -/
def mdlStepResult : Builder × Bool :=
  (processTitle 1 (initDataset mdlBuilder) "A" "A_text").toOption.getD
    (initDataset mdlBuilder, false)

/-- Witness for C5 at the `mdlBuilder` corpus (`max_dataset_length = 1`):
pass 0 emits nothing, and pass 1 stops right after the first accepted
sample, ignoring title `B`. -/
theorem twoPassEmission_witness :
    ((buildDataset 0 (initDataset mdlBuilder) mdlBuilder.articles).1).samples
        = (initDataset mdlBuilder).samples
    ∧ buildDataset 1 (initDataset mdlBuilder) [("A", "A_text"), ("B", "B_text")]
        = (mdlStepResult.1, none) :=
  ⟨twoPassEmission.1 (initDataset mdlBuilder) mdlBuilder.articles,
   twoPassEmission.2.2 (initDataset mdlBuilder) mdlStepResult.1 "A" "A_text"
     mdlStepResult.2 1 [("B", "B_text")] rfl (by decide) (by decide) rfl
     (by decide)⟩

/-- C6: with a configured (truthy, hence positive) global quota `q`, the
per-link expansion counters never exceed `q` at any point of a pass: from
any pass state whose counters are all at most `q` — in particular the
reset state starting a pass — processing any list of titles keeps every
counter at most `q`.  Moreover one accepted sample bumps a link's counter
by at most one, because `_get_links` collapses duplicate candidates. -/
theorem globalQuotaRespected {b : Builder} {q it : Nat}
    {rows : List (String × String)}
    (hq : b.maxLinkExpansionsGlobal = some q) (h0 : 0 < q)
    (hinv : ∀ l, b.linkExpansionCount l ≤ q) :
    (∀ l, ((buildDataset it b rows).1).linkExpansionCount l ≤ q)
    ∧ (∀ (t x : String) (s : Sample) (l : String),
        expand b t x = Except.ok s →
        (trackExpandedLinks b s.links_expanded).linkExpansionCount l
          ≤ b.linkExpansionCount l + 1) := by
  constructor
  · exact buildDataset_quota_invariant h0 rows it b hq hinv
  · intro t x s l hexp
    rw [trackExpandedLinks_count]
    have hone : s.links_expanded.count l ≤ 1 :=
      List.nodup_iff_count_le_one.1 (expand_links_nodup hexp) l
    omega

/-- Witness for C6 at the `quotaOneBuilder` corpus with quota 1. -/
theorem globalQuotaRespected_witness :
    ((buildDataset 1 (initDataset quotaOneBuilder)
        quotaOneBuilder.articles).1).linkExpansionCount "B" ≤ 1 :=
  (@globalQuotaRespected (initDataset quotaOneBuilder) 1 1
    quotaOneBuilder.articles rfl (by decide) (fun _ => Nat.zero_le _)).1 "B"

/-- C7 evaluation at the failing input: with
`max_link_expansions_global = 0` the bare truthiness test in `_get_links`
skips the quota filter entirely, so link `B` stays eligible and IS
expanded — the code treats a quota of 0 as "no limit", while the claim
(and the builder's docstring reading of "maximum number of times a link
can be expanded") requires no link to be eligible.  The threshold half of
the claim does hold: with `max_tokens = 0` the loop guard fails at once
and the article is returned unchanged. -/
theorem quotaZeroThresholdZero_eval :
    getLinks quotaZeroBuilder "A" = ["B"]
    ∧ expand quotaZeroBuilder "A" "A_text"
        = Except.ok { title := "A", n_tokens := 2, links_expanded := ["B"],
                      n_links_expanded := 1, expanded_text := "B_text\n\nA_text" }
    ∧ expand thresholdZeroBuilder "A" "A_text"
        = Except.ok { title := "A", n_tokens := 1, links_expanded := [],
                      n_links_expanded := 0, expanded_text := "A_text" } :=
  ⟨rfl, rfl, rfl⟩

/-- C8 counterexample: with the unknown include strategy `"bogus"` on a
corpus without links, the whole two-pass run completes WITHOUT raising any
error and emits a sample — the configuration error is not raised
immediately, not reported before processing begins, and output is
produced. -/
theorem invalidStrategy_cex :
    bogusBuilder.includeStrategy = "bogus"
    ∧ (buildExpandedDataset bogusBuilder).2 = none
    ∧ ((buildExpandedDataset bogusBuilder).1).samples
        = [{ title := "A", n_tokens := 3, links_expanded := [],
             n_links_expanded := 0, expanded_text := "A_text" }] :=
  ⟨rfl, rfl, rfl⟩

/-- C8 (amended): an unknown include strategy raises `ValueError` when the
strategy value is first used, i.e. at the first link splice — every use of
`_include_link_text` fails, and an `_expand` that returns at all has
spliced nothing; if no link is ever spliced the error is never raised.
Samples are appended only in pass 1, so a pass-0 abort leaves the dataset
file exactly as it was. -/
theorem invalidStrategy_amended {b : Builder}
    (h1 : b.includeStrategy ≠ "append") (h2 : b.includeStrategy ≠ "prepend") :
    (∀ la tx, includeLinkText b la tx
        = Except.error ("Invalid include strategy: " ++ b.includeStrategy))
    ∧ (∀ (t x : String) (s : Sample),
        expand b t x = Except.ok s → s.links_expanded = [])
    ∧ (∀ rows, ((buildDataset 0 b rows).1).samples = b.samples) :=
  ⟨includeLinkText_invalid h1 h2,
   fun _ _ _ hs => expand_invalid_no_splice h1 h2 hs,
   fun rows => buildDataset_zero_samples rows b⟩

/-- Witness for the amended C8 at the `bogusBuilder` corpus. -/
theorem invalidStrategy_amended_witness :
    includeLinkText bogusBuilder "L" "T"
      = Except.error "Invalid include strategy: bogus" :=
  (@invalidStrategy_amended bogusBuilder (by decide) (by decide)).1 "L" "T"

/-- C9: each splice starts only while the accumulated token count is
strictly below `max_tokens`, so a produced sample overshoots `max_tokens`
by less than the final spliced link's token count; and every sample the
driver adds to the dataset lies inside `[min_tokens, max_tokens]` — the
same `max_tokens` that stops the loop — so a sample whose final splice
overshoots `max_tokens` is silently dropped and never emitted. -/
theorem overshootAndAcceptance :
    (∀ (b : Builder) (t x : String) (s : Sample) (z : String),
      expand b t x = Except.ok s → s.links_expanded.getLast? = some z →
      s.n_tokens < b.maxTokens + b.titleToNumTokens z)
    ∧ (∀ (it : Nat) (rows : List (String × String)) (b : Builder) (s : Sample),
      s ∈ ((buildDataset it b rows).1).samples →
      s ∈ b.samples ∨ (b.minTokens ≤ s.n_tokens ∧ s.n_tokens ≤ b.maxTokens)) :=
  ⟨fun _ _ _ _ z hs hz => (expand_ok_parts hs).2.2.2.2 z hz,
   fun it rows b s hs => buildDataset_samples_window it rows b s hs⟩

/-- Witness for C9 at Scenario A: the sample's 10 tokens overshoot the
threshold 8 by less than the final spliced link `B`'s 5 tokens. -/
theorem overshootAndAcceptance_witness :
    scenarioSample.n_tokens
      < scenarioBuilder.maxTokens + scenarioBuilder.titleToNumTokens "B" :=
  overshootAndAcceptance.1 scenarioBuilder "A" "A_text" scenarioSample "B" rfl rfl

/-- C10: self-links are not filtered out: any existing title listed among
its own outgoing links that passes the (possibly inactive) global-quota
filter is an ordinary eligible candidate of its own article; concretely,
expanding `selfLinkBuilder`'s article `A` (3 tokens, linking to itself)
splices `A`'s own text into the sample, lists `A` in `links_expanded`, and
counts `A`'s tokens twice (`n_tokens = 6`). -/
theorem selfLinkEligibility :
    (∀ (b : Builder) (t : String),
      articleExists b t = true → t ∈ b.titleToLinks t →
      (optTruthy b.maxLinkExpansionsGlobal = true →
        b.linkExpansionCount t < b.maxLinkExpansionsGlobal.getD 0) →
      t ∈ getLinks b t)
    ∧ getLinks selfLinkBuilder "A" = ["A"]
    ∧ expand selfLinkBuilder "A" "A_text"
        = Except.ok { title := "A", n_tokens := 6, links_expanded := ["A"],
                      n_links_expanded := 1, expanded_text := "A_text\n\nA_text" } := by
  refine ⟨?_, rfl, rfl⟩
  intro b t hex hmem hq
  unfold getLinks
  rw [mem_prioritizeLinks]
  split
  · rename_i htr
    refine List.mem_filter.2 ⟨List.mem_filter.2 ⟨List.mem_dedup.2 hmem, hex⟩, ?_⟩
    simpa using hq htr
  · exact List.mem_filter.2 ⟨List.mem_dedup.2 hmem, hex⟩

/-- Witness for C10: `A` is an eligible candidate of its own article. -/
theorem selfLinkEligibility_witness : "A" ∈ getLinks selfLinkBuilder "A" :=
  selfLinkEligibility.1 selfLinkBuilder "A" rfl (by decide)
    (fun h => absurd h (by decide))
